import Mathlib

/-!
Verification of the time-fractal-lab Partition Engine.

This file gives a shallow embedding, over exact rational arithmetic, of the
two modules that implement the Vimshottari partitioning logic:

* `src/kp_keno_timedasha/run_timedasha.py` (namespace `TimeDasha`): the
  temporal dasha hierarchy (rotation, nine-way proportional subdivision,
  segment location, the six-level MAHA..PRANA build with remaining
  duration / fraction), and
* `src/core/astro_snapshot_engine.py` (namespace `AstroEngine`): the angular
  Nakshatra / Sub / SSL computation, the deterministic no-ephemeris fallback,
  and the snapshot batch annotation (trend, prev/next, distance to the next
  Sub/SSL change).

Time instants and angles are modelled as rationals; Python dictionaries
holding segment data are modelled as structures; functions that can raise
are modelled with Option.
-/

namespace TimeDasha

/-- Canonical Vimshottari order, `DASHA_ORDER` in run_timedasha.py. -/
def DASHA_ORDER : List String :=
  ["KETU", "VENUS", "SUN", "MOON", "MARS",
   "RAHU", "JUPITER", "SATURN", "MERCURY"]

/-- Weight table `DASHA_YEARS` in run_timedasha.py. -/
def DASHA_YEARS : String → ℚ
  | "KETU" => 7
  | "VENUS" => 20
  | "SUN" => 6
  | "MOON" => 10
  | "MARS" => 7
  | "RAHU" => 18
  | "JUPITER" => 16
  | "SATURN" => 19
  | "MERCURY" => 17
  | _ => 0

/-- `TOTAL_YEARS` in run_timedasha.py. -/
def TOTAL_YEARS : ℚ := 120

/-- A dasha segment: the dict with keys lord/start/end built by
`build_maha_segments` and `build_sub_segments`. -/
structure Segment where
  lord : String
  start : ℚ
  end_ : ℚ
deriving Repr, DecidableEq

/-- `rotate_order_to` in run_timedasha.py: rotate `DASHA_ORDER` so that
`start_lord` comes first; the ValueError branch for an unknown lord is
modelled as `none`. -/
def rotate_order_to (start_lord : String) : Option (List String) :=
  if start_lord ∈ DASHA_ORDER then
    some (DASHA_ORDER.drop (DASHA_ORDER.indexOf start_lord) ++
          DASHA_ORDER.take (DASHA_ORDER.indexOf start_lord))
  else
    none

/-- The scan loop of `find_interval`: first segment with start ≤ t < end. -/
def find_loop : List Segment → ℚ → Option Segment
  | [], _ => none
  | seg :: rest, t =>
      if seg.start ≤ t ∧ t < seg.end_ then some seg else find_loop rest t

/-- `find_interval` in run_timedasha.py: the first segment containing `t`;
if none does, the last segment (Python `segments[-1]`, which raises on an
empty list — modelled as `none`). -/
def find_interval (segments : List Segment) (t : ℚ) : Option Segment :=
  match find_loop segments t with
  | some seg => some seg
  | none => segments.getLast?

/-- The segment-allocation loop shared by `build_maha_segments` and
`build_sub_segments`: walk through `order`, giving each lord the span
`total_seconds * (DASHA_YEARS lord / TOTAL_YEARS)` starting at `current`. -/
def alloc_segments (order : List String) (total_seconds : ℚ) (current : ℚ) :
    List Segment :=
  match order with
  | [] => []
  | lord :: rest =>
      let duration_seconds := total_seconds * (DASHA_YEARS lord / TOTAL_YEARS)
      { lord := lord, start := current, end_ := current + duration_seconds } ::
        alloc_segments rest total_seconds (current + duration_seconds)

/-- The closing statement `segments[-1]["end"] = frame_end` of both build
functions: force the last segment to end exactly at `frame_end`. -/
def snap_last_end (frame_end : ℚ) : List Segment → List Segment
  | [] => []
  | [seg] => [{ seg with end_ := frame_end }]
  | seg :: seg2 :: rest => seg :: snap_last_end frame_end (seg2 :: rest)

/-- `build_maha_segments` in run_timedasha.py. -/
def build_maha_segments (frame_start frame_end : ℚ) (start_lord : String) :
    Option (List Segment) :=
  (rotate_order_to start_lord).map (fun order =>
    snap_last_end frame_end
      (alloc_segments order (frame_end - frame_start) frame_start))

/-- `build_sub_segments` in run_timedasha.py: same allocation loop but over
the fixed canonical `DASHA_ORDER`, scaled to the parent interval. -/
def build_sub_segments (parent_start parent_end : ℚ) : List Segment :=
  snap_last_end parent_end
    (alloc_segments DASHA_ORDER (parent_end - parent_start) parent_start)

/-- One level entry of the result of `compute_active_vimshottari_levels`:
the active segment dict after duration / remaining / remaining_fraction
have been added. -/
structure LevelInfo where
  lord : String
  start : ℚ
  end_ : ℚ
  duration : ℚ
  remaining : ℚ
  remaining_fraction : ℚ
deriving Repr, DecidableEq

/-- The enrichment loop at the end of `compute_active_vimshottari_levels`:
duration, remaining (floored at zero) and remaining_fraction (zero for a
non-positive duration, otherwise the ratio clamped into [0,1]). -/
def enrich (seg : Segment) (draw_time : ℚ) : LevelInfo :=
  { lord := seg.lord
    start := seg.start
    end_ := seg.end_
    duration := seg.end_ - seg.start
    remaining :=
      if seg.end_ - draw_time < 0 then 0 else seg.end_ - draw_time
    remaining_fraction :=
      if seg.end_ - seg.start ≤ 0 then 0
      else
        let remaining :=
          if seg.end_ - draw_time < 0 then (0 : ℚ) else seg.end_ - draw_time
        let rf := remaining / (seg.end_ - seg.start)
        if rf < 0 then 0 else if rf > 1 then 1 else rf }

/-- The six levels returned by `compute_active_vimshottari_levels`. -/
structure Levels where
  maha : LevelInfo
  antar : LevelInfo
  praty : LevelInfo
  sook : LevelInfo
  sub : LevelInfo
  prana : LevelInfo
deriving Repr, DecidableEq

/-- `compute_active_vimshottari_levels` in run_timedasha.py: build the six
levels MAHA → ANTAR → PRATY → SOOK → SUB → PRANA, each below MAHA obtained
by subdividing the previous active segment with `build_sub_segments`, and
enrich each active segment with duration / remaining / remaining_fraction. -/
def compute_active_vimshottari_levels (frame_start frame_end draw_time : ℚ)
    (start_lord : String) : Option Levels := do
  let maha_segments ← build_maha_segments frame_start frame_end start_lord
  let maha_active ← find_interval maha_segments draw_time
  let antar_segments := build_sub_segments maha_active.start maha_active.end_
  let antar_active ← find_interval antar_segments draw_time
  let praty_segments := build_sub_segments antar_active.start antar_active.end_
  let praty_active ← find_interval praty_segments draw_time
  let sook_segments := build_sub_segments praty_active.start praty_active.end_
  let sook_active ← find_interval sook_segments draw_time
  let sub_segments := build_sub_segments sook_active.start sook_active.end_
  let sub_active ← find_interval sub_segments draw_time
  let prana_segments := build_sub_segments sub_active.start sub_active.end_
  let prana_active ← find_interval prana_segments draw_time
  pure
    { maha := enrich maha_active draw_time
      antar := enrich antar_active draw_time
      praty := enrich praty_active draw_time
      sook := enrich sook_active draw_time
      sub := enrich sub_active draw_time
      prana := enrich prana_active draw_time }

/-! ### Specification predicates (used to state the claim theorems) -/

/-- Coverage specification for one nine-way subdivision of [lo, hi]:
nine children, first starting at lo, contiguous, last ending at hi, each
span the weighted share of the parent span, spans summing to the parent
span. -/
def subdivide_spec (lo hi : ℚ) (segs : List Segment) : Prop :=
  segs.length = 9 ∧
  segs.head?.map Segment.start = some lo ∧
  List.Chain' (fun a b => a.end_ = b.start) segs ∧
  segs.getLast?.map Segment.end_ = some hi ∧
  (∀ seg ∈ segs,
    seg.end_ - seg.start = (hi - lo) * (DASHA_YEARS seg.lord / TOTAL_YEARS)) ∧
  (segs.map (fun seg => seg.end_ - seg.start)).sum = hi - lo

/-- Totality / boundary specification of the locator over the segments
subdividing [lo, hi]: it answers exactly one segment; a containing member
is answered when one exists and members containing a point are unique; a
point at or beyond the parent end, or before the parent start, is
answered by the last segment. -/
def locate_spec (lo hi p : ℚ) (segs : List Segment) : Prop :=
  (∃ seg, find_interval segs p = some seg) ∧
  (∀ seg, find_interval segs p = some seg →
    seg ∈ segs ∧
    ((∃ s ∈ segs, s.start ≤ p ∧ p < s.end_) → seg.start ≤ p ∧ p < seg.end_)) ∧
  (∀ s1 ∈ segs, ∀ s2 ∈ segs,
    s1.start ≤ p → p < s1.end_ → s2.start ≤ p → p < s2.end_ → s1 = s2) ∧
  (hi ≤ p → find_interval segs p = segs.getLast?) ∧
  (p < lo → find_interval segs p = segs.getLast?)

/-- Formula specification of one enriched level, as stated in the spec:
duration is the segment span, remaining is the time to the segment end
floored at zero, remaining_fraction is the clamped ratio, zero for a
non-positive duration. -/
def level_formulas_spec (draw_time : ℚ) (info : LevelInfo) : Prop :=
  info.duration = info.end_ - info.start ∧
  info.remaining = max 0 (info.end_ - draw_time) ∧
  (info.duration ≤ 0 → info.remaining_fraction = 0) ∧
  (0 < info.duration →
    info.remaining_fraction = min 1 (max 0 (info.remaining / info.duration)))

/-- Interval containment between level entries. -/
def level_within (inner outer : LevelInfo) : Prop :=
  outer.start ≤ inner.start ∧ inner.end_ ≤ outer.end_

/-- Nesting specification of the six computed levels inside the frame,
with the remaining durations non-increasing from MAHA down to PRANA. -/
def nested_spec (frame_start frame_end : ℚ) (L : Levels) : Prop :=
  frame_start ≤ L.maha.start ∧ L.maha.end_ ≤ frame_end ∧
  level_within L.antar L.maha ∧
  level_within L.praty L.antar ∧
  level_within L.sook L.praty ∧
  level_within L.sub L.sook ∧
  level_within L.prana L.sub ∧
  L.prana.remaining ≤ L.sub.remaining ∧
  L.sub.remaining ≤ L.sook.remaining ∧
  L.sook.remaining ≤ L.praty.remaining ∧
  L.praty.remaining ≤ L.antar.remaining ∧
  L.antar.remaining ≤ L.maha.remaining

end TimeDasha

namespace AstroEngine

/-- Vimshottari order, `DASHA_ORDER` in astro_snapshot_engine.py. -/
def DASHA_ORDER : List String :=
  ["KE", "VE", "SU", "MO", "MA", "RA", "JU", "SA", "ME"]

/-- Dasha lengths, `DASHA_YEARS` in astro_snapshot_engine.py. -/
def DASHA_YEARS : List ℚ := [7, 20, 6, 10, 7, 18, 16, 19, 17]

/-- `NAKS_TOTAL` in astro_snapshot_engine.py. -/
def NAKS_TOTAL : ℕ := 27

/-- `NAKS_SPAN_DEG` in astro_snapshot_engine.py: 360 / 27 degrees. -/
def NAKS_SPAN_DEG : ℚ := 360 / 27

/-- `normalize_deg`: normalize an angle into [0, 360). The Python float
modulo is modelled as subtraction of the floored multiple. -/
def normalize_deg (deg : ℚ) : ℚ :=
  let d := deg - 360 * ⌊deg / 360⌋
  if d < 0 then d + 360 else d

/-- `compute_nakshatra_index`: floor-divide the normalized longitude by
the Nakshatra span, defensively clamped below 27. -/
def compute_nakshatra_index (longitude_deg_sidereal : ℚ) : ℤ :=
  let lon := normalize_deg longitude_deg_sidereal
  let idx := ⌊lon / NAKS_SPAN_DEG⌋
  if idx ≥ (NAKS_TOTAL : ℤ) then (NAKS_TOTAL : ℤ) - 1 else idx

/-- The scan loop shared by the Sub and SSL selection in
`compute_sub_ssl_for_longitude`: walk the ordered lengths, stopping at the
first segment whose cumulative window contains `pos` (or at the last
entry), returning the chosen index and the cumulative start before it. -/
def pick_index : List ℚ → ℚ → ℕ → ℚ → ℕ × ℚ
  | [], _, i, cumulative => (i, cumulative)
  | [_], _, i, cumulative => (i, cumulative)
  | seg_len :: l2 :: rest, pos, i, cumulative =>
      if pos < cumulative + seg_len then (i, cumulative)
      else pick_index (l2 :: rest) pos (i + 1) (cumulative + seg_len)

/-- The result dict of `compute_sub_ssl_for_longitude`. -/
structure SubSSLInfo where
  nak_index : ℤ
  nak_start_deg : ℚ
  nak_pos_deg : ℚ
  star_lord : String
  sub_lord : String
  ssl : String
  sub_start_deg : ℚ
  sub_span_deg : ℚ
  sub_pos_deg : ℚ
  ssl_start_deg : ℚ
  ssl_pos_deg : ℚ
deriving Repr, DecidableEq

/-- `compute_sub_ssl_for_longitude` in astro_snapshot_engine.py: Nakshatra
index, star lord, then the rotated proportional Sub and SSL selection. -/
def compute_sub_ssl_for_longitude (longitude_deg_sidereal : ℚ) : SubSSLInfo :=
  let lon := normalize_deg longitude_deg_sidereal
  let nak_index := compute_nakshatra_index lon
  let nak_start_deg := (nak_index : ℚ) * NAKS_SPAN_DEG
  let nak_pos_deg := lon - nak_start_deg
  let star_lord_index := (nak_index % 9).toNat
  let star_lord := DASHA_ORDER.getD star_lord_index ""
  let base_unit := NAKS_SPAN_DEG / 120
  let sub_lengths := DASHA_YEARS.map (fun years => years * base_unit)
  let order_indices := (List.range 9).map (fun i => (star_lord_index + i) % 9)
  let ordered_sub_lords := order_indices.map (fun i => DASHA_ORDER.getD i "")
  let ordered_sub_lengths := order_indices.map (fun i => sub_lengths.getD i 0)
  let sub_pick := pick_index ordered_sub_lengths nak_pos_deg 0 0
  let sub_lord := ordered_sub_lords.getD sub_pick.1 ""
  let sub_start_deg := sub_pick.2
  let sub_span_deg := ordered_sub_lengths.getD sub_pick.1 0
  let sub_pos_deg := nak_pos_deg - sub_start_deg
  let sub_lord_global_index := DASHA_ORDER.indexOf sub_lord
  let ssl_order_indices :=
    (List.range 9).map (fun i => (sub_lord_global_index + i) % 9)
  let ordered_ssl_lords := ssl_order_indices.map (fun i => DASHA_ORDER.getD i "")
  let ssl_base_unit := sub_span_deg / 120
  let ssl_lengths := DASHA_YEARS.map (fun years => years * ssl_base_unit)
  let ssl_pick := pick_index ssl_lengths sub_pos_deg 0 0
  let ssl_lord := ordered_ssl_lords.getD ssl_pick.1 ""
  { nak_index := nak_index
    nak_start_deg := nak_start_deg
    nak_pos_deg := nak_pos_deg
    star_lord := star_lord
    sub_lord := sub_lord
    ssl := ssl_lord
    sub_start_deg := sub_start_deg
    sub_span_deg := sub_span_deg
    sub_pos_deg := sub_pos_deg
    ssl_start_deg := ssl_pick.2
    ssl_pos_deg := sub_pos_deg - ssl_pick.2 }

/-- A metadata value inside the AstroState meta dict. -/
inductive MetaVal where
  | str (s : String)
  | int (n : ℤ)
deriving Repr, DecidableEq

/-- `AstroState` in astro_snapshot_engine.py; the meta dict is modelled as
an association list. -/
structure AstroState where
  sub : String
  ssl : String
  meta : List (String × MetaVal)
deriving Repr, DecidableEq

/-- `Candle` in astro_snapshot_engine.py; the timestamp is modelled as
rational unix seconds. -/
structure Candle where
  timestamp : ℚ
  tf : String
  open_ : ℚ
  high : ℚ
  low : ℚ
  close : ℚ
deriving Repr, DecidableEq

/-- `SnapshotRecord` in astro_snapshot_engine.py. -/
structure SnapshotRecord where
  candle : Candle
  trend : String
  astro : AstroState
  prev : Option AstroState := none
  next : Option AstroState := none
  dist_to_next_sub_change : Option ℚ := none
  dist_to_next_ssl_change : Option ℚ := none
deriving Repr, DecidableEq

/-- The fallback Sub label pool `sub_names` of
`_compute_astro_for_timestamp`. -/
def sub_names : List String :=
  ["KE", "VE", "SU", "MO", "MA", "RA", "JU", "SA", "ME"]

/-- The fallback SSL label pool `ssl_names` of
`_compute_astro_for_timestamp`. -/
def ssl_names : List String :=
  ["KE-SSL", "VE-SSL", "SU-SSL", "MO-SSL", "MA-SSL",
   "RA-SSL", "JU-SSL", "SA-SSL", "ME-SSL"]

/-- The `not HAS_SWISSEPH` branch of
`AstroSnapshotEngine._compute_astro_for_timestamp`: the deterministic
pseudo state keyed by the minute index. -/
def compute_astro_for_timestamp_fallback (ts : ℚ) : AstroState :=
  let minute_index : ℤ := ⌊ts / 60⌋
  { sub := sub_names.getD (minute_index % 9).toNat ""
    ssl := ssl_names.getD (minute_index % 9).toNat ""
    meta := [("info", MetaVal.str "FALLBACK – pyswisseph nicht installiert"),
             ("minute_index", MetaVal.int minute_index)] }

/-- `AstroSnapshotEngine._compute_trend`. -/
def compute_trend (candle : Candle) : String :=
  if candle.close > candle.open_ then "up"
  else if candle.close < candle.open_ then "down"
  else "neutral"

/-- The prev-reference loop of `_annotate_prev_next_and_distances`:
each record points back to the astro state of its predecessor (`prev?`
carries the state owed to the head). -/
def set_prev (prev? : Option AstroState) : List SnapshotRecord →
    List SnapshotRecord
  | [] => []
  | r :: rest => { r with prev := prev? } :: set_prev (some r.astro) rest

/-- The next-reference loop of `_annotate_prev_next_and_distances`. -/
def set_next : List SnapshotRecord → List SnapshotRecord
  | [] => []
  | [r] => [{ r with next := none }]
  | r :: r2 :: rest => { r with next := some r2.astro } :: set_next (r2 :: rest)

/-- The backward scan of
`AstroSnapshotEngine._compute_distance_to_next_changes`, as structural
recursion on the suffix: returns the annotated suffix together with the
timestamps of the next Sub change and next SSL change seen so far (the
scan keeps indices; only the timestamp of the indexed record is ever
used, so the timestamp is carried directly). -/
def dist_scan : List SnapshotRecord →
    List SnapshotRecord × Option ℚ × Option ℚ
  | [] => ([], none, none)
  | r :: rest =>
      let tail := dist_scan rest
      let next_sub_ts :=
        match rest with
        | [] => tail.2.1
        | r2 :: _ =>
            if r2.astro.sub ≠ r.astro.sub then some r2.candle.timestamp
            else tail.2.1
      let next_ssl_ts :=
        match rest with
        | [] => tail.2.2
        | r2 :: _ =>
            if r2.astro.ssl ≠ r.astro.ssl then some r2.candle.timestamp
            else tail.2.2
      ({ r with
          dist_to_next_sub_change :=
            next_sub_ts.map (fun t => (t - r.candle.timestamp) / 60)
          dist_to_next_ssl_change :=
            next_ssl_ts.map (fun t => (t - r.candle.timestamp) / 60) } ::
        tail.1,
       next_sub_ts, next_ssl_ts)

/-- `AstroSnapshotEngine._compute_distance_to_next_changes` (pure form:
the in-place mutation is modelled by returning the annotated list). -/
def compute_distance_to_next_changes (snapshots : List SnapshotRecord) :
    List SnapshotRecord :=
  (dist_scan snapshots).1

/-- `AstroSnapshotEngine.build_snapshots` in the `not HAS_SWISSEPH`
configuration with default config (prev/next and distances tracked):
sort by timestamp, compute astro state and trend per candle, link
prev/next, then annotate distances. -/
def build_snapshots_fallback (candles : List Candle) : List SnapshotRecord :=
  let candles_list := candles.mergeSort (fun a b => a.timestamp ≤ b.timestamp)
  let snapshots := candles_list.map (fun c =>
    { candle := c
      trend := compute_trend c
      astro := compute_astro_for_timestamp_fallback c.timestamp })
  compute_distance_to_next_changes (set_next (set_prev none snapshots))

/-- Distance-annotation specification for a snapshot batch `l`: in the
annotated result, the last record carries no next-Sub distance; a record
whose immediate successor carries a different Sub lord is annotated with
exactly the timestamp difference to that successor in minutes; and a
record after whose position the SSL lord never changes again carries no
next-SSL distance. -/
def dist_spec (l : List SnapshotRecord) : Prop :=
  (∀ r, (compute_distance_to_next_changes l).getLast? = some r →
    r.dist_to_next_sub_change = none) ∧
  (∀ i : ℕ, ∀ r r2 : SnapshotRecord,
    l.get? i = some r → l.get? (i + 1) = some r2 →
    r2.astro.sub ≠ r.astro.sub →
    ((compute_distance_to_next_changes l).get? i).map
        SnapshotRecord.dist_to_next_sub_change =
      some (some ((r2.candle.timestamp - r.candle.timestamp) / 60))) ∧
  (∀ i : ℕ, ∀ r : SnapshotRecord,
    l.get? i = some r →
    (∀ j : ℕ, ∀ r' : SnapshotRecord, i < j → l.get? j = some r' →
      r'.astro.ssl = r.astro.ssl) →
    ((compute_distance_to_next_changes l).get? i).map
        SnapshotRecord.dist_to_next_ssl_change =
      some none)

end AstroEngine

namespace TimeDasha

/-! ### Structural lemmas about the allocation loop -/

/-- Every weight in the table is non-negative. -/
lemma dasha_years_nonneg (s : String) : 0 ≤ DASHA_YEARS s := by
  unfold DASHA_YEARS
  split <;> norm_num

/-- Unfolding equation of the allocation loop. -/
lemma alloc_segments_cons (l : String) (rest : List String) (T c : ℚ) :
    alloc_segments (l :: rest) T c =
      { lord := l, start := c,
        end_ := c + T * (DASHA_YEARS l / TOTAL_YEARS) } ::
        alloc_segments rest T (c + T * (DASHA_YEARS l / TOTAL_YEARS)) := rfl

/-- The allocation loop lays out exactly the lords of the given order. -/
lemma alloc_segments_map_lord (order : List String) (T c : ℚ) :
    (alloc_segments order T c).map Segment.lord = order := by
  induction order generalizing c with
  | nil => rfl
  | cons l rest ih => simp [alloc_segments, ih]

/-- Length of the allocation result. -/
lemma alloc_segments_length (order : List String) (T c : ℚ) :
    (alloc_segments order T c).length = order.length := by
  induction order generalizing c with
  | nil => rfl
  | cons l rest ih => simp [alloc_segments, ih]

/-- Consecutive segments of the allocation loop are contiguous. -/
lemma alloc_segments_chain (order : List String) (T c : ℚ) :
    List.Chain' (fun a b => a.end_ = b.start) (alloc_segments order T c) := by
  induction order generalizing c with
  | nil => simp [alloc_segments]
  | cons l rest ih =>
      cases rest with
      | nil => simp [alloc_segments]
      | cons l2 rest2 =>
          rw [alloc_segments, alloc_segments]
          refine List.chain'_cons.mpr ⟨rfl, ?_⟩
          rw [← alloc_segments]
          exact ih _

/-- The last segment of a non-empty allocation ends at the start plus the
total span scaled by the summed weights over 120. -/
lemma alloc_segments_getLast_end (l : String) (rest : List String) (T c : ℚ) :
    (alloc_segments (l :: rest) T c).getLast?.map Segment.end_ =
      some (c + T * (((l :: rest).map DASHA_YEARS).sum / TOTAL_YEARS)) := by
  induction rest generalizing c l with
  | nil => simp [alloc_segments]
  | cons l2 rest2 ih =>
      rw [alloc_segments_cons, alloc_segments_cons, List.getLast?_cons_cons,
        ← alloc_segments_cons, ih]
      simp only [List.map_cons, List.sum_cons, Option.some.injEq]
      ring

/-- Snapping the last end to a value it already has does nothing. -/
lemma snap_last_end_self (fe : ℚ) :
    ∀ l : List Segment, l.getLast?.map Segment.end_ = some fe →
      snap_last_end fe l = l := by
  intro l
  induction l with
  | nil => intro h; simp at h
  | cons seg rest ih =>
      intro h
      cases rest with
      | nil =>
          simp at h
          cases seg
          simp_all [snap_last_end]
      | cons seg2 rest2 =>
          rw [List.getLast?_cons_cons] at h
          rw [snap_last_end, ih h]

/-- The weights of the canonical order sum to 120. -/
lemma dasha_order_years_sum : (DASHA_ORDER.map DASHA_YEARS).sum = 120 := by
  norm_num [DASHA_ORDER, DASHA_YEARS]

/-- A successful rotation returns the canonical order cyclically shifted. -/
lemma rotate_eq (s : String) (ord : List String)
    (h : rotate_order_to s = some ord) :
    ∃ k : ℕ, ord = DASHA_ORDER.drop k ++ DASHA_ORDER.take k := by
  unfold rotate_order_to at h
  split at h
  · simp only [Option.some.injEq] at h
    exact ⟨DASHA_ORDER.indexOf s, h.symm⟩
  · exact absurd h (by simp)

/-- Any successful rotation of the canonical order has weights summing
to 120. -/
lemma rotate_years_sum (s : String) (ord : List String)
    (h : rotate_order_to s = some ord) :
    (ord.map DASHA_YEARS).sum = 120 := by
  obtain ⟨k, hk⟩ := rotate_eq s ord h
  subst hk
  rw [List.map_append, List.sum_append, List.map_drop, List.map_take]
  rw [add_comm, List.sum_take_add_sum_drop]
  exact dasha_order_years_sum

/-- A successful rotation has exactly nine entries. -/
lemma rotate_length (s : String) (ord : List String)
    (h : rotate_order_to s = some ord) : ord.length = 9 := by
  obtain ⟨k, hk⟩ := rotate_eq s ord h
  subst hk
  simp only [List.length_append, List.length_drop, List.length_take]
  have : DASHA_ORDER.length = 9 := by decide
  omega

/-- A successful rotation is non-empty. -/
lemma rotate_ne_nil (s : String) (ord : List String)
    (h : rotate_order_to s = some ord) : ord ≠ [] := by
  have hlen := rotate_length s ord h
  intro hnil
  rw [hnil] at hlen
  simp at hlen

/-- Because the nine weights sum to 120, the forced last end equals the
value the allocation already produced: the sub-level builder is the raw
allocation over the canonical order. -/
lemma build_sub_segments_eq (ps pe : ℚ) :
    build_sub_segments ps pe =
      alloc_segments DASHA_ORDER (pe - ps) ps := by
  unfold build_sub_segments
  apply snap_last_end_self
  rw [show DASHA_ORDER = "KETU" ::
    ["VENUS", "SUN", "MOON", "MARS", "RAHU", "JUPITER", "SATURN", "MERCURY"]
    from rfl]
  rw [alloc_segments_getLast_end]
  rw [show ("KETU" ::
    ["VENUS", "SUN", "MOON", "MARS", "RAHU", "JUPITER", "SATURN", "MERCURY"])
    = DASHA_ORDER from rfl]
  rw [dasha_order_years_sum]
  norm_num [TOTAL_YEARS]

/-- Same identity for the MAHA builder over any valid rotation. -/
lemma build_maha_segments_eq (fs fe : ℚ) (lord : String) (ord : List String)
    (h : rotate_order_to lord = some ord) :
    build_maha_segments fs fe lord =
      some (alloc_segments ord (fe - fs) fs) := by
  unfold build_maha_segments
  rw [h]
  simp only [Option.map_some']
  congr 1
  apply snap_last_end_self
  obtain ⟨l, rest, hcons⟩ : ∃ l rest, ord = l :: rest := by
    cases ord with
    | nil => exact absurd rfl (rotate_ne_nil lord [] h)
    | cons l rest => exact ⟨l, rest, rfl⟩
  subst hcons
  rw [alloc_segments_getLast_end, rotate_years_sum lord _ h]
  norm_num [TOTAL_YEARS]

/-- Each allocated segment spans exactly its proportional share of the
total span. -/
lemma alloc_segments_span (order : List String) (T c : ℚ) :
    ∀ seg ∈ alloc_segments order T c,
      seg.end_ - seg.start = T * (DASHA_YEARS seg.lord / TOTAL_YEARS) := by
  induction order generalizing c with
  | nil => simp [alloc_segments]
  | cons l rest ih =>
      intro seg hseg
      rw [alloc_segments_cons] at hseg
      rcases List.mem_cons.mp hseg with h | h
      · subst h; ring
      · exact ih _ seg h

/-- For a non-negative total span, every allocated segment sits inside the
interval from the running start to the running start plus the weighted
total span, and its own endpoints are ordered. -/
lemma alloc_segments_bounds (order : List String) (T : ℚ) (hT : 0 ≤ T) :
    ∀ c : ℚ, ∀ seg ∈ alloc_segments order T c,
      c ≤ seg.start ∧ seg.start ≤ seg.end_ ∧
        seg.end_ ≤ c + T * (((order.map DASHA_YEARS).sum) / TOTAL_YEARS) := by
  induction order with
  | nil => simp [alloc_segments]
  | cons l rest ih =>
      intro c seg hseg
      have hy : 0 ≤ DASHA_YEARS l := dasha_years_nonneg l
      have hsum : 0 ≤ (rest.map DASHA_YEARS).sum :=
        List.sum_nonneg (by
          intro x hx
          obtain ⟨s, _, rfl⟩ := List.mem_map.mp hx
          exact dasha_years_nonneg s)
      have htotal : (0 : ℚ) < TOTAL_YEARS := by norm_num [TOTAL_YEARS]
      rw [alloc_segments_cons] at hseg
      rcases List.mem_cons.mp hseg with h | h
      · subst h
        refine ⟨le_refl _, ?_, ?_⟩
        · simp only
          nlinarith [mul_nonneg hT (div_nonneg hy htotal.le)]
        · simp only [List.map_cons, List.sum_cons]
          have : 0 ≤ T * ((rest.map DASHA_YEARS).sum / TOTAL_YEARS) :=
            mul_nonneg hT (div_nonneg hsum htotal.le)
          have hsplit : T * ((DASHA_YEARS l + (rest.map DASHA_YEARS).sum) /
              TOTAL_YEARS) =
              T * (DASHA_YEARS l / TOTAL_YEARS) +
                T * ((rest.map DASHA_YEARS).sum / TOTAL_YEARS) := by
            ring
          linarith
      · obtain ⟨h1, h2, h3⟩ := ih _ seg h
        have h0 : 0 ≤ T * (DASHA_YEARS l / TOTAL_YEARS) :=
          mul_nonneg hT (div_nonneg hy htotal.le)
        refine ⟨by linarith, h2, ?_⟩
        simp only [List.map_cons, List.sum_cons]
        have hsplit : T * ((DASHA_YEARS l + (rest.map DASHA_YEARS).sum) /
            TOTAL_YEARS) =
            T * (DASHA_YEARS l / TOTAL_YEARS) +
              T * ((rest.map DASHA_YEARS).sum / TOTAL_YEARS) := by
          ring
        linarith

/-- Allocated segments are pairwise ordered: an earlier segment ends no
later than a later one starts. -/
lemma alloc_segments_pairwise (order : List String) (T : ℚ) (hT : 0 ≤ T) :
    ∀ c : ℚ, List.Pairwise (fun a b => a.end_ ≤ b.start)
      (alloc_segments order T c) := by
  induction order with
  | nil => intro c; simp [alloc_segments]
  | cons l rest ih =>
      intro c
      rw [alloc_segments_cons]
      refine List.pairwise_cons.mpr ⟨?_, ih _⟩
      intro seg hseg
      exact (alloc_segments_bounds rest T hT _ seg hseg).1

/-! ### Lemmas about segment location -/

/-- The scan loop returns none exactly when no segment contains the point. -/
lemma find_loop_eq_none (segments : List Segment) (t : ℚ) :
    find_loop segments t = none ↔
      ∀ seg ∈ segments, ¬ (seg.start ≤ t ∧ t < seg.end_) := by
  induction segments with
  | nil => simp [find_loop]
  | cons seg rest ih =>
      rw [find_loop]
      split
      · rename_i hin
        simp only [List.mem_cons]
        constructor
        · intro h; simp at h
        · intro h
          exact absurd hin (h seg (Or.inl rfl))
      · rename_i hout
        simp only [List.mem_cons, ih]
        constructor
        · intro h s hs
          rcases hs with rfl | hs
          · exact hout
          · exact h s hs
        · intro h s hs
          exact h s (Or.inr hs)

/-- A successful scan returns a member segment that contains the point. -/
lemma find_loop_eq_some (segments : List Segment) (t : ℚ) (seg : Segment)
    (h : find_loop segments t = some seg) :
    seg ∈ segments ∧ seg.start ≤ t ∧ t < seg.end_ := by
  induction segments with
  | nil => simp [find_loop] at h
  | cons s rest ih =>
      rw [find_loop] at h
      split at h
      · rename_i hin
        cases h
        exact ⟨List.mem_cons_self _ _, hin⟩
      · obtain ⟨hmem, hcontain⟩ := ih h
        exact ⟨List.mem_cons_of_mem _ hmem, hcontain⟩

/-- On a non-empty list the locator always answers. -/
lemma find_interval_isSome (segments : List Segment) (t : ℚ)
    (h : segments ≠ []) : ∃ seg, find_interval segments t = some seg := by
  unfold find_interval
  cases hloop : find_loop segments t with
  | some seg => exact ⟨seg, rfl⟩
  | none =>
      rw [List.getLast?_eq_getLast segments h]
      exact ⟨segments.getLast h, rfl⟩

/-- The locator only ever returns a member of the list. -/
lemma find_interval_mem (segments : List Segment) (t : ℚ) (seg : Segment)
    (h : find_interval segments t = some seg) : seg ∈ segments := by
  unfold find_interval at h
  cases hloop : find_loop segments t with
  | some s =>
      rw [hloop] at h
      cases h
      exact (find_loop_eq_some segments t _ hloop).1
  | none =>
      rw [hloop] at h
      cases hnil : segments with
      | nil => subst hnil; simp at h
      | cons a rest =>
          subst hnil
          rw [List.getLast?_eq_getLast _ (by simp)] at h
          cases h
          exact List.getLast_mem _

/-- When some member contains the point, the locator returns a segment
containing the point. -/
lemma find_interval_contains (segments : List Segment) (t : ℚ) (seg : Segment)
    (hex : ∃ s ∈ segments, s.start ≤ t ∧ t < s.end_)
    (h : find_interval segments t = some seg) :
    seg.start ≤ t ∧ t < seg.end_ := by
  unfold find_interval at h
  cases hloop : find_loop segments t with
  | some s =>
      rw [hloop] at h
      cases h
      exact (find_loop_eq_some segments t _ hloop).2
  | none =>
      obtain ⟨s, hs, hc⟩ := hex
      exact absurd hc ((find_loop_eq_none segments t).mp hloop s hs)

/-- When no member contains the point, the locator falls back to the last
segment. -/
lemma find_interval_last (segments : List Segment) (t : ℚ)
    (hnone : ∀ s ∈ segments, ¬ (s.start ≤ t ∧ t < s.end_)) :
    find_interval segments t = segments.getLast? := by
  unfold find_interval
  rw [(find_loop_eq_none segments t).mpr hnone]

/-- The spans of an allocation sum to the weighted share of the total. -/
lemma alloc_segments_span_sum (order : List String) (T c : ℚ) :
    ((alloc_segments order T c).map (fun seg => seg.end_ - seg.start)).sum =
      T * (((order.map DASHA_YEARS).sum) / TOTAL_YEARS) := by
  induction order generalizing c with
  | nil => simp [alloc_segments, TOTAL_YEARS]
  | cons l rest ih =>
      rw [alloc_segments_cons]
      simp only [List.map_cons, List.sum_cons, ih, List.sum_cons]
      ring

/-- The first allocated segment starts at the running start. -/
lemma alloc_segments_head_start (l : String) (rest : List String) (T c : ℚ) :
    (alloc_segments (l :: rest) T c).head?.map Segment.start = some c := rfl

/-- The sub-level builder satisfies the coverage specification. -/
lemma build_sub_subdivide_spec (ps pe : ℚ) :
    subdivide_spec ps pe (build_sub_segments ps pe) := by
  rw [build_sub_segments_eq]
  have horder : DASHA_ORDER = "KETU" ::
      ["VENUS", "SUN", "MOON", "MARS", "RAHU", "JUPITER", "SATURN",
       "MERCURY"] := rfl
  refine ⟨?_, ?_, alloc_segments_chain _ _ _, ?_, ?_, ?_⟩
  · rw [alloc_segments_length]; rfl
  · rw [horder, alloc_segments_head_start]
  · rw [horder, alloc_segments_getLast_end, ← horder, dasha_order_years_sum]
    norm_num [TOTAL_YEARS]
  · intro seg hseg
    exact alloc_segments_span DASHA_ORDER (pe - ps) ps seg hseg
  · rw [alloc_segments_span_sum, dasha_order_years_sum]
    norm_num [TOTAL_YEARS]

/-- The MAHA builder satisfies the coverage specification. -/
lemma build_maha_subdivide_spec (fs fe : ℚ) (lord : String)
    (segs : List Segment) (h : build_maha_segments fs fe lord = some segs) :
    subdivide_spec fs fe segs := by
  obtain ⟨ord, hrot⟩ : ∃ ord, rotate_order_to lord = some ord := by
    unfold build_maha_segments at h
    cases hr : rotate_order_to lord with
    | none => rw [hr] at h; simp at h
    | some ord => exact ⟨ord, rfl⟩
  rw [build_maha_segments_eq fs fe lord ord hrot] at h
  obtain rfl : segs = alloc_segments ord (fe - fs) fs := by
    cases h; rfl
  obtain ⟨l, rest, hcons⟩ : ∃ l rest, ord = l :: rest := by
    cases ord with
    | nil => exact absurd rfl (rotate_ne_nil lord [] hrot)
    | cons l rest => exact ⟨l, rest, rfl⟩
  refine ⟨?_, ?_, alloc_segments_chain _ _ _, ?_, ?_, ?_⟩
  · rw [alloc_segments_length]; exact rotate_length lord ord hrot
  · rw [hcons, alloc_segments_head_start]
  · rw [hcons, alloc_segments_getLast_end, ← hcons,
      rotate_years_sum lord ord hrot]
    norm_num [TOTAL_YEARS]
  · intro seg hseg
    exact alloc_segments_span ord (fe - fs) fs seg hseg
  · rw [alloc_segments_span_sum, rotate_years_sum lord ord hrot]
    norm_num [TOTAL_YEARS]

/-- Every segment produced by the sub-level builder lies inside the
parent interval, with ordered endpoints. -/
lemma build_sub_mem_bounds (ps pe : ℚ) (h : ps ≤ pe) :
    ∀ seg ∈ build_sub_segments ps pe,
      ps ≤ seg.start ∧ seg.start ≤ seg.end_ ∧ seg.end_ ≤ pe := by
  rw [build_sub_segments_eq]
  intro seg hseg
  have hb := alloc_segments_bounds DASHA_ORDER (pe - ps) (by linarith) ps
    seg hseg
  rw [dasha_order_years_sum] at hb
  have ht : (pe - ps) * (120 / TOTAL_YEARS) = pe - ps := by
    norm_num [TOTAL_YEARS]
  rw [ht] at hb
  exact ⟨hb.1, hb.2.1, by linarith [hb.2.2]⟩

/-- Every segment produced by the MAHA builder lies inside the frame,
with ordered endpoints. -/
lemma build_maha_mem_bounds (fs fe : ℚ) (lord : String)
    (segs : List Segment) (h : fs ≤ fe)
    (hb : build_maha_segments fs fe lord = some segs) :
    ∀ seg ∈ segs, fs ≤ seg.start ∧ seg.start ≤ seg.end_ ∧ seg.end_ ≤ fe := by
  obtain ⟨ord, hrot⟩ : ∃ ord, rotate_order_to lord = some ord := by
    unfold build_maha_segments at hb
    cases hr : rotate_order_to lord with
    | none => rw [hr] at hb; simp at hb
    | some ord => exact ⟨ord, rfl⟩
  rw [build_maha_segments_eq fs fe lord ord hrot] at hb
  obtain rfl : segs = alloc_segments ord (fe - fs) fs := by
    cases hb; rfl
  intro seg hseg
  have hbnd := alloc_segments_bounds ord (fe - fs) (by linarith) fs seg hseg
  rw [rotate_years_sum lord ord hrot] at hbnd
  have ht : (fe - fs) * (120 / TOTAL_YEARS) = fe - fs := by
    norm_num [TOTAL_YEARS]
  rw [ht] at hbnd
  exact ⟨hbnd.1, hbnd.2.1, by linarith [hbnd.2.2]⟩

/-- The sub-level builder always returns a non-empty list. -/
lemma build_sub_ne_nil (ps pe : ℚ) : build_sub_segments ps pe ≠ [] := by
  rw [build_sub_segments_eq]
  intro hnil
  have := alloc_segments_length DASHA_ORDER (pe - ps) ps
  rw [hnil] at this
  simp [DASHA_ORDER] at this

/-- In a list of pairwise ordered segments, at most one member contains a
given point. -/
lemma pairwise_unique_contains {segs : List Segment}
    (hp : List.Pairwise (fun a b => a.end_ ≤ b.start) segs) (p : ℚ) :
    ∀ s1 ∈ segs, ∀ s2 ∈ segs,
      s1.start ≤ p → p < s1.end_ → s2.start ≤ p → p < s2.end_ → s1 = s2 := by
  induction segs with
  | nil => simp
  | cons s rest ih =>
      obtain ⟨hhead, hrest⟩ := List.pairwise_cons.mp hp
      intro s1 h1 s2 h2 ha1 hb1 ha2 hb2
      rcases List.mem_cons.mp h1 with e1 | h1'
      · rcases List.mem_cons.mp h2 with e2 | h2'
        · rw [e1, e2]
        · rw [e1] at hb1
          exact absurd (lt_of_lt_of_le hb1 (hhead s2 h2')) (not_lt.mpr ha2)
      · rcases List.mem_cons.mp h2 with e2 | h2'
        · rw [e2] at hb2
          exact absurd (lt_of_lt_of_le hb2 (hhead s1 h1')) (not_lt.mpr ha1)
        · exact ih hrest s1 h1' s2 h2' ha1 hb1 ha2 hb2

/-- Segments produced by the sub-level builder are pairwise ordered. -/
lemma build_sub_pairwise (ps pe : ℚ) (h : ps ≤ pe) :
    List.Pairwise (fun a b => a.end_ ≤ b.start) (build_sub_segments ps pe) := by
  rw [build_sub_segments_eq]
  exact alloc_segments_pairwise DASHA_ORDER (pe - ps) (by linarith) ps

/-- Segments produced by the MAHA builder are pairwise ordered. -/
lemma build_maha_pairwise (fs fe : ℚ) (lord : String) (segs : List Segment)
    (h : fs ≤ fe) (hb : build_maha_segments fs fe lord = some segs) :
    List.Pairwise (fun a b => a.end_ ≤ b.start) segs := by
  obtain ⟨ord, hrot⟩ : ∃ ord, rotate_order_to lord = some ord := by
    unfold build_maha_segments at hb
    cases hr : rotate_order_to lord with
    | none => rw [hr] at hb; simp at hb
    | some ord => exact ⟨ord, rfl⟩
  rw [build_maha_segments_eq fs fe lord ord hrot] at hb
  obtain rfl : segs = alloc_segments ord (fe - fs) fs := by cases hb; rfl
  exact alloc_segments_pairwise ord (fe - fs) (by linarith) fs

/-- Generic proof of the locate specification over a segment list with the
bounds, pairwise-order and non-emptiness facts established. -/
lemma locate_spec_of_bounds (lo hi p : ℚ) (segs : List Segment)
    (hne : segs ≠ [])
    (hbounds : ∀ seg ∈ segs,
      lo ≤ seg.start ∧ seg.start ≤ seg.end_ ∧ seg.end_ ≤ hi)
    (hp : List.Pairwise (fun a b => a.end_ ≤ b.start) segs) :
    locate_spec lo hi p segs := by
  refine ⟨find_interval_isSome segs p hne, ?_, ?_, ?_, ?_⟩
  · intro seg hfind
    exact ⟨find_interval_mem segs p seg hfind,
      fun hex => find_interval_contains segs p seg hex hfind⟩
  · exact pairwise_unique_contains hp p
  · intro hge
    apply find_interval_last
    intro s hs hc
    have := (hbounds s hs).2.2
    linarith [hc.2]
  · intro hlt
    apply find_interval_last
    intro s hs hc
    have := (hbounds s hs).1
    linarith [hc.1]

/-! ### Claim theorems for the temporal dasha module -/

/-- C4: for every interval with end ≥ start and every rotation of the
canonical order, the nine-way subdivision (MAHA builder over any valid
start lord, and the sub-level builder) yields exactly nine contiguous
segments starting at the interval start, each spanning its lord's weight
over 120 of the parent span, the last ending exactly at the interval end,
and the spans summing exactly to the parent span. -/
theorem claim_C4_subdivide_coverage :
    (∀ fs fe : ℚ, ∀ lord : String, ∀ segs : List Segment, fs ≤ fe →
      build_maha_segments fs fe lord = some segs →
        subdivide_spec fs fe segs) ∧
    (∀ ps pe : ℚ, ps ≤ pe → subdivide_spec ps pe (build_sub_segments ps pe)) :=
  ⟨fun fs fe lord segs _ h => build_maha_subdivide_spec fs fe lord segs h,
   fun ps pe _ => build_sub_subdivide_spec ps pe⟩

/-- C4 witness: the coverage specification instantiated on the degenerate
frame [0, 0] with start lord KETU. -/
theorem claim_C4_witness :
    ((0 : ℚ) ≤ 0 ∧
     build_maha_segments 0 0 "KETU" = some
       [⟨"KETU", 0, 0⟩, ⟨"VENUS", 0, 0⟩, ⟨"SUN", 0, 0⟩, ⟨"MOON", 0, 0⟩,
        ⟨"MARS", 0, 0⟩, ⟨"RAHU", 0, 0⟩, ⟨"JUPITER", 0, 0⟩, ⟨"SATURN", 0, 0⟩,
        ⟨"MERCURY", 0, 0⟩] ∧
     subdivide_spec 0 0
       [⟨"KETU", 0, 0⟩, ⟨"VENUS", 0, 0⟩, ⟨"SUN", 0, 0⟩, ⟨"MOON", 0, 0⟩,
        ⟨"MARS", 0, 0⟩, ⟨"RAHU", 0, 0⟩, ⟨"JUPITER", 0, 0⟩, ⟨"SATURN", 0, 0⟩,
        ⟨"MERCURY", 0, 0⟩]) ∧
    ((0 : ℚ) ≤ 0 ∧ subdivide_spec 0 0 (build_sub_segments 0 0)) :=
  ⟨⟨le_refl 0,
    by simp [build_maha_segments, rotate_order_to, alloc_segments,
      snap_last_end, DASHA_ORDER, DASHA_YEARS, TOTAL_YEARS],
    claim_C4_subdivide_coverage.1 0 0 "KETU"
      [⟨"KETU", 0, 0⟩, ⟨"VENUS", 0, 0⟩, ⟨"SUN", 0, 0⟩, ⟨"MOON", 0, 0⟩,
       ⟨"MARS", 0, 0⟩, ⟨"RAHU", 0, 0⟩, ⟨"JUPITER", 0, 0⟩, ⟨"SATURN", 0, 0⟩,
       ⟨"MERCURY", 0, 0⟩] (le_refl 0)
      (by simp [build_maha_segments, rotate_order_to, alloc_segments,
        snap_last_end, DASHA_ORDER, DASHA_YEARS, TOTAL_YEARS])⟩,
   ⟨le_refl 0, claim_C4_subdivide_coverage.2 0 0 (le_refl 0)⟩⟩

/-- C2 (amended): the locator is total over every segment list produced
by either builder on an interval with end ≥ start; it answers the unique
containing member when one exists, and answers the LAST segment both when
the query is at or beyond the interval end and when the query is before
the interval start (the original claim expected the first segment in the
latter case). -/
theorem claim_C2_locate_total_amended :
    (∀ fs fe p : ℚ, ∀ lord : String, ∀ segs : List Segment, fs ≤ fe →
      build_maha_segments fs fe lord = some segs →
        locate_spec fs fe p segs) ∧
    (∀ ps pe p : ℚ, ps ≤ pe →
      locate_spec ps pe p (build_sub_segments ps pe)) := by
  constructor
  · intro fs fe p lord segs hle hb
    have hlen := (build_maha_subdivide_spec fs fe lord segs hb).1
    refine locate_spec_of_bounds fs fe p segs ?_
      (build_maha_mem_bounds fs fe lord segs hle hb)
      (build_maha_pairwise fs fe lord segs hle hb)
    intro hnil
    rw [hnil] at hlen
    simp at hlen
  · intro ps pe p hle
    exact locate_spec_of_bounds ps pe p (build_sub_segments ps pe)
      (build_sub_ne_nil ps pe) (build_sub_mem_bounds ps pe hle)
      (build_sub_pairwise ps pe hle)

/-- C2 witness: the locate specification on the degenerate interval
[0, 0] queried at 0. -/
theorem claim_C2_witness :
    (0 : ℚ) ≤ 0 ∧ locate_spec 0 0 0 (build_sub_segments 0 0) :=
  ⟨le_refl 0, claim_C2_locate_total_amended.2 0 0 0 (le_refl 0)⟩

/-- C2 counterexample: on the subdivision of [0, 120], a query before the
interval start is answered by the LAST segment (MERCURY), not the first
segment (KETU) as the claim states. -/
theorem claim_C2_counterexample :
    find_interval (build_sub_segments 0 120) (-1) =
      some ⟨"MERCURY", 103, 120⟩ ∧
    (build_sub_segments 0 120).head? = some ⟨"KETU", 0, 7⟩ ∧
    (⟨"MERCURY", 103, 120⟩ : Segment) ≠ ⟨"KETU", 0, 7⟩ := by
  refine ⟨?_, ?_, by decide⟩
  · norm_num [build_sub_segments, alloc_segments, snap_last_end, DASHA_ORDER,
      DASHA_YEARS, TOTAL_YEARS, find_interval, find_loop]
  · norm_num [build_sub_segments, alloc_segments, snap_last_end, DASHA_ORDER,
      DASHA_YEARS, TOTAL_YEARS]

/-- C1 (amended): every sub-level below MAHA lays out its nine children in
the FIXED canonical order KETU, VENUS, SUN, MOON, MARS, RAHU, JUPITER,
SATURN, MERCURY, regardless of the lord of the parent active segment: the
first child always carries KETU, not the parent segment lord. -/
theorem claim_C1_sub_levels_fixed_order :
    ∀ ps pe : ℚ,
      (build_sub_segments ps pe).map Segment.lord = DASHA_ORDER ∧
      (build_sub_segments ps pe).head?.map Segment.lord = some "KETU" := by
  intro ps pe
  rw [build_sub_segments_eq]
  constructor
  · exact alloc_segments_map_lord DASHA_ORDER (pe - ps) ps
  · rw [show DASHA_ORDER = "KETU" ::
      ["VENUS", "SUN", "MOON", "MARS", "RAHU", "JUPITER", "SATURN",
       "MERCURY"] from rfl]
    rfl

/-- Enrichment leaves the segment fields unchanged and satisfies the
level formula specification. -/
lemma enrich_level_formulas (seg : Segment) (draw : ℚ) :
    level_formulas_spec draw (enrich seg draw) := by
  refine ⟨rfl, ?_, ?_, ?_⟩
  · simp only [enrich]
    rcases lt_or_le (seg.end_ - draw) 0 with h | h
    · rw [if_pos h, max_eq_left h.le]
    · rw [if_neg (not_lt.mpr h), max_eq_right h]
  · intro hd
    simp only [enrich] at hd ⊢
    rw [if_pos hd]
  · intro hd
    simp only [enrich] at hd ⊢
    rw [if_neg (not_le.mpr hd)]
    set rem := if seg.end_ - draw < 0 then (0 : ℚ) else seg.end_ - draw with hrem
    have hrem0 : 0 ≤ rem := by
      rw [hrem]; split_ifs with h
      · exact le_refl 0
      · linarith [not_lt.mp h]
    have hratio0 : 0 ≤ rem / (seg.end_ - seg.start) :=
      div_nonneg hrem0 (by linarith)
    rw [if_neg (not_lt.mpr hratio0), max_eq_right hratio0]
    rcases lt_or_le 1 (rem / (seg.end_ - seg.start)) with h | h
    · rw [if_pos h, min_eq_left h.le]
    · rw [if_neg (not_lt.mpr h), min_eq_right h]

/-- For a query inside a positive-duration segment, the remaining
fraction is exactly the linear ratio. -/
lemma enrich_fraction_formula (seg : Segment) (q : ℚ)
    (hd : seg.start < seg.end_) (h1 : seg.start ≤ q) (h2 : q ≤ seg.end_) :
    (enrich seg q).remaining_fraction =
      (seg.end_ - q) / (seg.end_ - seg.start) := by
  have hpos : 0 < seg.end_ - seg.start := by linarith
  have hrem : 0 ≤ seg.end_ - q := by linarith
  have hle : (seg.end_ - q) / (seg.end_ - seg.start) ≤ 1 := by
    rw [div_le_one hpos]; linarith
  have hge : 0 ≤ (seg.end_ - q) / (seg.end_ - seg.start) :=
    div_nonneg hrem hpos.le
  simp only [enrich]
  rw [if_neg (by linarith : ¬ seg.end_ - seg.start ≤ 0),
    if_neg (not_lt.mpr hrem), if_neg (not_lt.mpr hge),
    if_neg (not_lt.mpr hle)]

/-- Enrichment keeps the segment endpoints. -/
lemma enrich_start (seg : Segment) (draw : ℚ) :
    (enrich seg draw).start = seg.start := rfl

/-- Enrichment keeps the segment end. -/
lemma enrich_end (seg : Segment) (draw : ℚ) :
    (enrich seg draw).end_ = seg.end_ := rfl

/-- The floored remaining time is monotone in the segment end. -/
lemma enrich_remaining_mono (a b : Segment) (draw : ℚ)
    (h : a.end_ ≤ b.end_) :
    (enrich a draw).remaining ≤ (enrich b draw).remaining := by
  simp only [enrich]
  split_ifs with h1 h2 h2 <;> linarith

/-- Inversion of the six-level build: a successful result decomposes into
the chain of located active segments, each located inside the subdivision
of the previous active segment. -/
lemma compute_active_eq_some (fs fe draw : ℚ) (lord : String) (L : Levels)
    (h : compute_active_vimshottari_levels fs fe draw lord = some L) :
    ∃ segs maha antar praty sook sub prana,
      build_maha_segments fs fe lord = some segs ∧
      find_interval segs draw = some maha ∧
      find_interval (build_sub_segments maha.start maha.end_) draw =
        some antar ∧
      find_interval (build_sub_segments antar.start antar.end_) draw =
        some praty ∧
      find_interval (build_sub_segments praty.start praty.end_) draw =
        some sook ∧
      find_interval (build_sub_segments sook.start sook.end_) draw =
        some sub ∧
      find_interval (build_sub_segments sub.start sub.end_) draw =
        some prana ∧
      L = { maha := enrich maha draw, antar := enrich antar draw,
            praty := enrich praty draw, sook := enrich sook draw,
            sub := enrich sub draw, prana := enrich prana draw } := by
  unfold compute_active_vimshottari_levels at h
  cases hm : build_maha_segments fs fe lord with
  | none => rw [hm] at h; simp at h
  | some segs =>
  rw [hm] at h
  simp only [Option.bind_eq_bind, Option.some_bind] at h
  cases h1 : find_interval segs draw with
  | none => rw [h1] at h; simp at h
  | some maha =>
  rw [h1] at h
  simp only [Option.some_bind] at h
  cases h2 : find_interval (build_sub_segments maha.start maha.end_) draw with
  | none => rw [h2] at h; simp at h
  | some antar =>
  rw [h2] at h
  simp only [Option.some_bind] at h
  cases h3 : find_interval (build_sub_segments antar.start antar.end_) draw with
  | none => rw [h3] at h; simp at h
  | some praty =>
  rw [h3] at h
  simp only [Option.some_bind] at h
  cases h4 : find_interval (build_sub_segments praty.start praty.end_) draw with
  | none => rw [h4] at h; simp at h
  | some sook =>
  rw [h4] at h
  simp only [Option.some_bind] at h
  cases h5 : find_interval (build_sub_segments sook.start sook.end_) draw with
  | none => rw [h5] at h; simp at h
  | some sub =>
  rw [h5] at h
  simp only [Option.some_bind] at h
  cases h6 : find_interval (build_sub_segments sub.start sub.end_) draw with
  | none => rw [h6] at h; simp at h
  | some prana =>
  rw [h6] at h
  simp only [Option.some_bind, Option.pure_def, Option.some.injEq] at h
  exact ⟨segs, maha, antar, praty, sook, sub, prana,
    rfl, h1, h2, h3, h4, h5, h6, h.symm⟩

/-- C5: for every dasha level result and query instant, duration equals
the segment span, remaining equals the time to the segment end floored at
zero, and remaining_fraction equals the remaining-over-duration ratio
clamped into [0, 1], defined as 0 for a non-positive duration. -/
theorem claim_C5_level_formulas :
    ∀ fs fe draw : ℚ, ∀ lord : String,
      (compute_active_vimshottari_levels fs fe draw lord).elim True
        (fun L =>
          level_formulas_spec draw L.maha ∧
          level_formulas_spec draw L.antar ∧
          level_formulas_spec draw L.praty ∧
          level_formulas_spec draw L.sook ∧
          level_formulas_spec draw L.sub ∧
          level_formulas_spec draw L.prana) := by
  intro fs fe draw lord
  cases hL : compute_active_vimshottari_levels fs fe draw lord with
  | none => simp
  | some L =>
      simp only [Option.elim]
      obtain ⟨segs, maha, antar, praty, sook, sub, prana,
        _, _, _, _, _, _, _, hLeq⟩ :=
        compute_active_eq_some fs fe draw lord L hL
      subst hLeq
      exact ⟨enrich_level_formulas maha draw, enrich_level_formulas antar draw,
        enrich_level_formulas praty draw, enrich_level_formulas sook draw,
        enrich_level_formulas sub draw, enrich_level_formulas prana draw⟩

/-- C6: for a fixed positive-duration segment the remaining fraction
strictly decreases as the query advances inside the segment, equals 1 at
the segment start, and equals 0 at the segment end. -/
theorem claim_C6_remaining_fraction_monotone :
    (∀ seg : Segment, ∀ q1 q2 : ℚ, seg.start < seg.end_ →
      seg.start ≤ q1 → q1 < q2 → q2 ≤ seg.end_ →
        (enrich seg q2).remaining_fraction <
          (enrich seg q1).remaining_fraction) ∧
    (∀ seg : Segment, seg.start < seg.end_ →
      (enrich seg seg.start).remaining_fraction = 1) ∧
    (∀ seg : Segment, seg.start < seg.end_ →
      (enrich seg seg.end_).remaining_fraction = 0) := by
  refine ⟨?_, ?_, ?_⟩
  · intro seg q1 q2 hd h1 h12 h2
    rw [enrich_fraction_formula seg q1 hd h1 (by linarith),
      enrich_fraction_formula seg q2 hd (by linarith) h2]
    have hpos : 0 < seg.end_ - seg.start := by linarith
    exact (div_lt_div_iff_of_pos_right hpos).mpr (by linarith)
  · intro seg hd
    rw [enrich_fraction_formula seg seg.start hd (le_refl _) hd.le]
    exact div_self (by linarith)
  · intro seg hd
    rw [enrich_fraction_formula seg seg.end_ hd hd.le (le_refl _)]
    simp

/-- C6 witness: the monotonicity statement instantiated on the unit
segment [0, 1] with queries 0 and 1. -/
theorem claim_C6_witness :
    ((0 : ℚ) < 1 ∧ (0 : ℚ) ≤ 0 ∧ (0 : ℚ) < 1 ∧ (1 : ℚ) ≤ 1 ∧
      (enrich ⟨"KETU", 0, 1⟩ 1).remaining_fraction <
        (enrich ⟨"KETU", 0, 1⟩ 0).remaining_fraction) ∧
    ((0 : ℚ) < 1 ∧ (enrich ⟨"KETU", 0, 1⟩ 0).remaining_fraction = 1) ∧
    ((0 : ℚ) < 1 ∧ (enrich ⟨"KETU", 0, 1⟩ 1).remaining_fraction = 0) :=
  ⟨⟨zero_lt_one, le_refl 0, zero_lt_one, le_refl 1,
    claim_C6_remaining_fraction_monotone.1 ⟨"KETU", 0, 1⟩ 0 1
      zero_lt_one (le_refl 0) zero_lt_one (le_refl 1)⟩,
   ⟨zero_lt_one,
    claim_C6_remaining_fraction_monotone.2.1 ⟨"KETU", 0, 1⟩ zero_lt_one⟩,
   ⟨zero_lt_one,
    claim_C6_remaining_fraction_monotone.2.2 ⟨"KETU", 0, 1⟩ zero_lt_one⟩⟩

/-- C9: for every frame with end ≥ start, start lord and query instant,
the six active segments returned by the hierarchy build are nested
(PRANA inside SUB inside SOOK inside PRATY inside ANTAR inside MAHA
inside the frame) and the remaining durations are non-increasing from
MAHA down to PRANA. -/
theorem claim_C9_nesting :
    ∀ fs fe draw : ℚ, ∀ lord : String, fs ≤ fe →
      (compute_active_vimshottari_levels fs fe draw lord).elim True
        (nested_spec fs fe) := by
  intro fs fe draw lord hle
  cases hL : compute_active_vimshottari_levels fs fe draw lord with
  | none => simp
  | some L =>
      simp only [Option.elim]
      obtain ⟨segs, maha, antar, praty, sook, sub, prana,
        hm, h1, h2, h3, h4, h5, h6, hLeq⟩ :=
        compute_active_eq_some fs fe draw lord L hL
      have bm : fs ≤ maha.start ∧ maha.start ≤ maha.end_ ∧ maha.end_ ≤ fe :=
        build_maha_mem_bounds fs fe lord segs hle hm maha
          (find_interval_mem segs draw maha h1)
      have ba : maha.start ≤ antar.start ∧ antar.start ≤ antar.end_ ∧
          antar.end_ ≤ maha.end_ :=
        build_sub_mem_bounds maha.start maha.end_ bm.2.1 antar
          (find_interval_mem _ draw antar h2)
      have bp : antar.start ≤ praty.start ∧ praty.start ≤ praty.end_ ∧
          praty.end_ ≤ antar.end_ :=
        build_sub_mem_bounds antar.start antar.end_ ba.2.1 praty
          (find_interval_mem _ draw praty h3)
      have bs : praty.start ≤ sook.start ∧ sook.start ≤ sook.end_ ∧
          sook.end_ ≤ praty.end_ :=
        build_sub_mem_bounds praty.start praty.end_ bp.2.1 sook
          (find_interval_mem _ draw sook h4)
      have bu : sook.start ≤ sub.start ∧ sub.start ≤ sub.end_ ∧
          sub.end_ ≤ sook.end_ :=
        build_sub_mem_bounds sook.start sook.end_ bs.2.1 sub
          (find_interval_mem _ draw sub h5)
      have bn : sub.start ≤ prana.start ∧ prana.start ≤ prana.end_ ∧
          prana.end_ ≤ sub.end_ :=
        build_sub_mem_bounds sub.start sub.end_ bu.2.1 prana
          (find_interval_mem _ draw prana h6)
      subst hLeq
      refine ⟨bm.1, bm.2.2, ⟨ba.1, ba.2.2⟩, ⟨bp.1, bp.2.2⟩, ⟨bs.1, bs.2.2⟩,
        ⟨bu.1, bu.2.2⟩, ⟨bn.1, bn.2.2⟩, ?_, ?_, ?_, ?_, ?_⟩
      · exact enrich_remaining_mono prana sub draw bn.2.2
      · exact enrich_remaining_mono sub sook draw bu.2.2
      · exact enrich_remaining_mono sook praty draw bs.2.2
      · exact enrich_remaining_mono praty antar draw bp.2.2
      · exact enrich_remaining_mono antar maha draw ba.2.2

/-- C9 witness: the nesting statement instantiated on the degenerate
frame [0, 0] with start lord KETU queried at 0. -/
theorem claim_C9_witness :
    (0 : ℚ) ≤ 0 ∧
      (compute_active_vimshottari_levels 0 0 0 "KETU").elim True
        (nested_spec 0 0) :=
  ⟨le_refl 0, claim_C9_nesting 0 0 0 "KETU" (le_refl 0)⟩

/-- C1 counterexample: on the frame [0, 120] with start lord KETU queried
at 8, the active MAHA segment is VENUS over [7, 27], yet the first child
segment the ANTAR level builds for that parent carries KETU, not VENUS:
the sub-level does not restart the cycle at the parent segment lord. -/
theorem claim_C1_counterexample :
    build_maha_segments 0 120 "KETU" = some
      [⟨"KETU", 0, 7⟩, ⟨"VENUS", 7, 27⟩, ⟨"SUN", 27, 33⟩, ⟨"MOON", 33, 43⟩,
       ⟨"MARS", 43, 50⟩, ⟨"RAHU", 50, 68⟩, ⟨"JUPITER", 68, 84⟩,
       ⟨"SATURN", 84, 103⟩, ⟨"MERCURY", 103, 120⟩] ∧
    find_interval
      [⟨"KETU", 0, 7⟩, ⟨"VENUS", 7, 27⟩, ⟨"SUN", 27, 33⟩, ⟨"MOON", 33, 43⟩,
       ⟨"MARS", 43, 50⟩, ⟨"RAHU", 50, 68⟩, ⟨"JUPITER", 68, 84⟩,
       ⟨"SATURN", 84, 103⟩, ⟨"MERCURY", 103, 120⟩] 8 =
      some ⟨"VENUS", 7, 27⟩ ∧
    (build_sub_segments 7 27).head?.map Segment.lord = some "KETU" ∧
    "KETU" ≠ "VENUS" := by
  refine ⟨?_, ?_, ?_, by decide⟩
  · norm_num [build_maha_segments, rotate_order_to, alloc_segments,
      snap_last_end, DASHA_ORDER, DASHA_YEARS, TOTAL_YEARS]
  · norm_num [find_interval, find_loop]
  · exact (claim_C1_sub_levels_fixed_order 7 27).2



end TimeDasha

namespace AstroEngine

/-! ### Lemmas about the angular Sub / SSL computation -/

/-- Normalization is the identity on angles already in [0, 360). -/
lemma normalize_deg_of_lt (x : ℚ) (h0 : 0 ≤ x) (h360 : x < 360) :
    normalize_deg x = x := by
  unfold normalize_deg
  have hfloor : ⌊x / 360⌋ = 0 := by
    rw [Int.floor_eq_zero_iff]
    constructor
    · positivity
    · rw [div_lt_one (by norm_num : (0:ℚ) < 360)]; simpa using h360
  rw [hfloor]
  simp only [Int.cast_zero, mul_zero, sub_zero]
  rw [if_neg (not_lt.mpr h0)]

/-- At the exact start boundary of Nakshatra `i`, the computed index
is `i`. -/
lemma nakshatra_index_at_start (i : ℕ) (hi : i < 27) :
    compute_nakshatra_index ((i : ℚ) * NAKS_SPAN_DEG) = (i : ℤ) := by
  have h0 : (0:ℚ) ≤ (i : ℚ) * NAKS_SPAN_DEG := by
    have : (0:ℚ) ≤ (i:ℚ) := Nat.cast_nonneg i
    rw [NAKS_SPAN_DEG]; positivity
  have hlt : (i : ℚ) * NAKS_SPAN_DEG < 360 := by
    rw [NAKS_SPAN_DEG]
    have : (i : ℚ) < 27 := by exact_mod_cast hi
    nlinarith
  unfold compute_nakshatra_index
  dsimp only
  rw [normalize_deg_of_lt _ h0 hlt]
  have hspan : (NAKS_SPAN_DEG : ℚ) ≠ 0 := by rw [NAKS_SPAN_DEG]; norm_num
  rw [mul_div_cancel_right₀ _ hspan, Int.floor_natCast]
  rw [if_neg]
  intro hge
  rw [NAKS_TOTAL] at hge
  omega

/-- C7: for every Nakshatra index 0..26, the Sub lord computed at the
exact start boundary of that Nakshatra (position 0 inside it) equals the
star lord of the Nakshatra, which is the canonical order entry at index
mod 9. -/
theorem claim_C7_rotation_identity : ∀ i : ℕ, i < 27 →
    (compute_sub_ssl_for_longitude ((i : ℚ) * NAKS_SPAN_DEG)).nak_pos_deg
      = 0 ∧
    (compute_sub_ssl_for_longitude ((i : ℚ) * NAKS_SPAN_DEG)).star_lord =
      DASHA_ORDER.getD (i % 9) "" ∧
    (compute_sub_ssl_for_longitude ((i : ℚ) * NAKS_SPAN_DEG)).sub_lord =
      (compute_sub_ssl_for_longitude ((i : ℚ) * NAKS_SPAN_DEG)).star_lord := by
  intro i hi
  have h0 : (0:ℚ) ≤ (i : ℚ) * NAKS_SPAN_DEG := by
    have : (0:ℚ) ≤ (i:ℚ) := Nat.cast_nonneg i
    rw [NAKS_SPAN_DEG]; positivity
  have hlt : (i : ℚ) * NAKS_SPAN_DEG < 360 := by
    rw [NAKS_SPAN_DEG]
    have : (i : ℚ) < 27 := by exact_mod_cast hi
    nlinarith
  have hmod : (((i : ℤ) % 9).toNat) = i % 9 := by omega
  unfold compute_sub_ssl_for_longitude
  dsimp only
  rw [normalize_deg_of_lt _ h0 hlt, nakshatra_index_at_start i hi, hmod]
  rw [Int.cast_natCast, sub_self]
  have hrange : List.range 9 = [0, 1, 2, 3, 4, 5, 6, 7, 8] := rfl
  rw [hrange]
  have hk : i % 9 < 9 := Nat.mod_lt i (by norm_num)
  set k := i % 9 with hkdef
  interval_cases k <;>
    norm_num [pick_index, DASHA_ORDER, DASHA_YEARS, NAKS_SPAN_DEG]

/-- C7 witness: the rotation identity at Nakshatra 0 (Ashwini). -/
theorem claim_C7_witness :
    0 < 27 ∧
    ((compute_sub_ssl_for_longitude ((0 : ℕ) * NAKS_SPAN_DEG)).nak_pos_deg
      = 0 ∧
    (compute_sub_ssl_for_longitude ((0 : ℕ) * NAKS_SPAN_DEG)).star_lord =
      DASHA_ORDER.getD (0 % 9) "" ∧
    (compute_sub_ssl_for_longitude ((0 : ℕ) * NAKS_SPAN_DEG)).sub_lord =
      (compute_sub_ssl_for_longitude ((0 : ℕ) * NAKS_SPAN_DEG)).star_lord) :=
  ⟨by decide, claim_C7_rotation_identity 0 (by decide)⟩

end AstroEngine

namespace AstroEngine

/-- Unfolding equation of the backward scan on a cons cell. -/
lemma dist_scan_cons (r : SnapshotRecord) (rest : List SnapshotRecord) :
    dist_scan (r :: rest) =
      ({ r with
          dist_to_next_sub_change :=
            (match rest with
             | [] => (dist_scan rest).2.1
             | r2 :: _ =>
                 if r2.astro.sub ≠ r.astro.sub then some r2.candle.timestamp
                 else (dist_scan rest).2.1).map
              (fun t => (t - r.candle.timestamp) / 60)
          dist_to_next_ssl_change :=
            (match rest with
             | [] => (dist_scan rest).2.2
             | r2 :: _ =>
                 if r2.astro.ssl ≠ r.astro.ssl then some r2.candle.timestamp
                 else (dist_scan rest).2.2).map
              (fun t => (t - r.candle.timestamp) / 60) } ::
        (dist_scan rest).1,
       (match rest with
        | [] => (dist_scan rest).2.1
        | r2 :: _ =>
            if r2.astro.sub ≠ r.astro.sub then some r2.candle.timestamp
            else (dist_scan rest).2.1),
       (match rest with
        | [] => (dist_scan rest).2.2
        | r2 :: _ =>
            if r2.astro.ssl ≠ r.astro.ssl then some r2.candle.timestamp
            else (dist_scan rest).2.2)) := by
  rw [dist_scan.eq_def]

/-- The scan preserves the batch length. -/
lemma dist_scan_length (l : List SnapshotRecord) :
    (dist_scan l).1.length = l.length := by
  induction l with
  | nil => rfl
  | cons r rest ih => rw [dist_scan_cons]; simp [ih]

/-- Dropping the head of a non-empty list commutes with taking the last
element. -/
lemma getLast?_cons_of_ne_nil {α : Type} (a : α) (l : List α) (h : l ≠ []) :
    (a :: l).getLast? = l.getLast? := by
  cases l with
  | nil => exact absurd rfl h
  | cons b m => exact List.getLast?_cons_cons

/-- The last annotated record carries no next-change distances. -/
lemma dist_scan_getLast_none :
    ∀ (l : List SnapshotRecord) (r : SnapshotRecord),
      (dist_scan l).1.getLast? = some r →
      r.dist_to_next_sub_change = none ∧ r.dist_to_next_ssl_change = none := by
  intro l
  induction l with
  | nil => intro r h; simp [dist_scan] at h
  | cons r0 rest ih =>
      intro r h
      cases rest with
      | nil =>
          rw [dist_scan_cons] at h
          simp only [dist_scan, Option.map_none', List.getLast?_singleton,
            Option.some.injEq] at h
          subst h
          exact ⟨rfl, rfl⟩
      | cons r1 rest2 =>
          rw [dist_scan_cons,
            getLast?_cons_of_ne_nil _ _ (by
              intro hnil
              have := dist_scan_length (r1 :: rest2)
              rw [hnil] at this
              simp at this)] at h
          exact ih r h

/-- Head annotation when the immediate successor changes Sub lord. -/
lemma dist_scan_head_sub_change (r r2 : SnapshotRecord)
    (rest : List SnapshotRecord) (hne : r2.astro.sub ≠ r.astro.sub) :
    ((dist_scan (r :: r2 :: rest)).1.get? 0).map
        SnapshotRecord.dist_to_next_sub_change =
      some (some ((r2.candle.timestamp - r.candle.timestamp) / 60)) := by
  rw [dist_scan_cons]
  simp [hne]

/-- If every record in the batch carries the same SSL lord, the scan
state for the next SSL change stays empty. -/
lemma dist_scan_ssl_state_none :
    ∀ (l : List SnapshotRecord) (s : String),
      (∀ x ∈ l, x.astro.ssl = s) → (dist_scan l).2.2 = none := by
  intro l
  induction l with
  | nil => intro s _; rfl
  | cons r rest ih =>
      intro s hall
      rw [dist_scan_cons]
      cases rest with
      | nil => rfl
      | cons r2 rest2 =>
          simp only
          rw [if_neg (by
            simp only [ne_eq, not_not]
            rw [hall r2 (by simp), hall r (by simp)])]
          exact ih s (fun x hx => hall x (List.mem_cons_of_mem _ hx))

/-- Head annotation when the SSL lord never changes after the head. -/
lemma dist_scan_head_ssl_none (r : SnapshotRecord)
    (rest : List SnapshotRecord)
    (hall : ∀ x ∈ rest, x.astro.ssl = r.astro.ssl) :
    ((dist_scan (r :: rest)).1.get? 0).map
        SnapshotRecord.dist_to_next_ssl_change = some none := by
  rw [dist_scan_cons]
  cases rest with
  | nil => simp [dist_scan]
  | cons r2 rest2 =>
      simp only [List.get?_cons_zero, Option.map_some']
      rw [if_neg (by
        simp only [ne_eq, not_not]
        exact hall r2 (by simp))]
      rw [dist_scan_ssl_state_none (r2 :: rest2) r.astro.ssl hall]
      rfl



/-- At any position whose immediate successor carries a different Sub
lord, the scan annotates exactly the timestamp difference to that
successor in minutes. -/
lemma dist_scan_get_sub_change :
    ∀ (l : List SnapshotRecord) (i : ℕ) (r r2 : SnapshotRecord),
      l.get? i = some r → l.get? (i + 1) = some r2 →
      r2.astro.sub ≠ r.astro.sub →
      ((dist_scan l).1.get? i).map SnapshotRecord.dist_to_next_sub_change =
        some (some ((r2.candle.timestamp - r.candle.timestamp) / 60)) := by
  intro l
  induction l with
  | nil => intro i r r2 h1 _ _; simp at h1
  | cons r0 rest ih =>
      intro i r r2 h1 h2 hne
      cases i with
      | zero =>
          rw [List.get?_cons_zero, Option.some.injEq] at h1
          subst h1
          cases rest with
          | nil => simp at h2
          | cons r1 rest2 =>
              rw [List.get?_cons_succ, List.get?_cons_zero,
                Option.some.injEq] at h2
              subst h2
              exact dist_scan_head_sub_change r0 r1 rest2 hne
      | succ i =>
          rw [List.get?_cons_succ] at h1 h2
          rw [dist_scan_cons, List.get?_cons_succ]
          exact ih i r r2 h1 h2 hne

/-- At any position after which the SSL lord never changes, the scan
annotates no next-SSL distance. -/
lemma dist_scan_get_ssl_none :
    ∀ (l : List SnapshotRecord) (i : ℕ) (r : SnapshotRecord),
      l.get? i = some r →
      (∀ j : ℕ, ∀ r' : SnapshotRecord, i < j → l.get? j = some r' →
        r'.astro.ssl = r.astro.ssl) →
      ((dist_scan l).1.get? i).map SnapshotRecord.dist_to_next_ssl_change =
        some none := by
  intro l
  induction l with
  | nil => intro i r h1 _; simp at h1
  | cons r0 rest ih =>
      intro i r h1 hall
      cases i with
      | zero =>
          rw [List.get?_cons_zero, Option.some.injEq] at h1
          subst h1
          apply dist_scan_head_ssl_none
          intro x hx
          obtain ⟨n, hn⟩ := List.mem_iff_get?.mp hx
          exact hall (n + 1) x (Nat.succ_pos n)
            (by rw [List.get?_cons_succ]; exact hn)
      | succ i =>
          rw [List.get?_cons_succ] at h1
          rw [dist_scan_cons, List.get?_cons_succ]
          refine ih i r h1 ?_
          intro j r' hij hj
          exact hall (j + 1) r' (by omega)
            (by rw [List.get?_cons_succ]; exact hj)

/-- C8: in every time-sorted snapshot batch, the last record has no
next-Sub-change distance; a record immediately preceding a Sub-lord
transition is annotated with exactly the inter-sample time difference in
minutes; and a record with no later SSL change has no next-SSL-change
distance. -/
theorem claim_C8_distance_semantics : ∀ l : List SnapshotRecord,
    List.Chain' (fun a b => a.candle.timestamp ≤ b.candle.timestamp) l →
    dist_spec l := by
  intro l _
  refine ⟨?_, ?_, ?_⟩
  · intro r h
    exact (dist_scan_getLast_none l r h).1
  · intro i r r2 h1 h2 hne
    exact dist_scan_get_sub_change l i r r2 h1 h2 hne
  · intro i r h1 hall
    exact dist_scan_get_ssl_none l i r h1 hall

/-- C8 witness: the distance semantics instantiated on a singleton
batch. -/
theorem claim_C8_witness :
    List.Chain' (fun a b => a.candle.timestamp ≤ b.candle.timestamp)
      [({ candle := ⟨0, "M1", 1, 1, 1, 1⟩, trend := "neutral",
          astro := ⟨"KE", "KE-SSL", []⟩ } : SnapshotRecord)] ∧
    dist_spec
      [({ candle := ⟨0, "M1", 1, 1, 1, 1⟩, trend := "neutral",
          astro := ⟨"KE", "KE-SSL", []⟩ } : SnapshotRecord)] :=
  ⟨by simp,
   claim_C8_distance_semantics
     [({ candle := ⟨0, "M1", 1, 1, 1, 1⟩, trend := "neutral",
         astro := ⟨"KE", "KE-SSL", []⟩ } : SnapshotRecord)] (by simp)⟩

end AstroEngine

namespace AstroEngine

/-- The fallback minute index taken mod 9 is a valid label index. -/
lemma fallback_minute_mod_lt (ts : ℚ) : ((⌊ts / 60⌋ % 9).toNat) < 9 := by
  have h1 : 0 ≤ ⌊ts / 60⌋ % 9 := Int.emod_nonneg _ (by norm_num)
  have h2 : ⌊ts / 60⌋ % 9 < 9 := Int.emod_lt_of_pos _ (by norm_num)
  omega

/-- Each fallback SSL label is the Sub label with suffix -SSL. -/
lemma ssl_names_eq_append : ∀ k : ℕ, k < 9 →
    ssl_names.getD k "" = sub_names.getD k "" ++ "-SSL" := by decide

/-- The nine fallback Sub labels are pairwise distinct. -/
lemma sub_names_getD_inj : ∀ k1 : ℕ, k1 < 9 → ∀ k2 : ℕ, k2 < 9 →
    (sub_names.getD k1 "" = sub_names.getD k2 "" ↔ k1 = k2) := by decide

/-- The nine fallback SSL labels are pairwise distinct. -/
lemma ssl_names_getD_inj : ∀ k1 : ℕ, k1 < 9 → ∀ k2 : ℕ, k2 < 9 →
    (ssl_names.getD k1 "" = ssl_names.getD k2 "" ↔ k1 = k2) := by decide

/-- Indexing below nine lands inside the Sub label pool. -/
lemma sub_names_getD_mem : ∀ k : ℕ, k < 9 →
    sub_names.getD k "" ∈ sub_names := by decide

/-- Indexing below nine lands inside the SSL label pool. -/
lemma ssl_names_getD_mem : ∀ k : ℕ, k < 9 →
    ssl_names.getD k "" ∈ ssl_names := by decide

/-- The Sub and SSL fallback label pools are disjoint. -/
lemma sub_ssl_names_disjoint : ∀ s ∈ sub_names, s ∉ ssl_names := by decide

/-- The fallback SSL label is always the Sub label plus -SSL. -/
lemma fallback_ssl_append (ts : ℚ) :
    (compute_astro_for_timestamp_fallback ts).ssl =
      (compute_astro_for_timestamp_fallback ts).sub ++ "-SSL" := by
  unfold compute_astro_for_timestamp_fallback
  dsimp only
  exact ssl_names_eq_append _ (fallback_minute_mod_lt ts)

/-- Two fallback states agree on Sub exactly when they agree on SSL. -/
lemma fallback_lockstep_iff (t1 t2 : ℚ) :
    ((compute_astro_for_timestamp_fallback t1).sub =
        (compute_astro_for_timestamp_fallback t2).sub ↔
      (compute_astro_for_timestamp_fallback t1).ssl =
        (compute_astro_for_timestamp_fallback t2).ssl) := by
  unfold compute_astro_for_timestamp_fallback
  dsimp only
  rw [sub_names_getD_inj _ (fallback_minute_mod_lt t1) _
    (fallback_minute_mod_lt t2),
    ssl_names_getD_inj _ (fallback_minute_mod_lt t1) _
    (fallback_minute_mod_lt t2)]

/-- The fallback meta dict carries the FALLBACK info marker. -/
lemma fallback_meta_info (ts : ℚ) :
    (compute_astro_for_timestamp_fallback ts).meta.lookup "info" =
      some (MetaVal.str "FALLBACK – pyswisseph nicht installiert") := rfl

/-- The fallback meta dict has no boolean fallback key at all. -/
lemma fallback_meta_no_flag (ts : ℚ) :
    (compute_astro_for_timestamp_fallback ts).meta.lookup "fallback" =
      none := rfl


/-- The prev-linking pass only rewrites the prev field. -/
lemma mem_set_prev : ∀ (p : Option AstroState) (l : List SnapshotRecord)
    (x : SnapshotRecord), x ∈ set_prev p l →
      ∃ y ∈ l, x.astro = y.astro ∧ x.candle = y.candle := by
  intro p l
  induction l generalizing p with
  | nil => intro x hx; simp [set_prev] at hx
  | cons r rest ih =>
      intro x hx
      rw [set_prev] at hx
      rcases List.mem_cons.mp hx with h | h
      · exact ⟨r, List.mem_cons_self _ _, by rw [h], by rw [h]⟩
      · obtain ⟨y, hy, ha, hc⟩ := ih (some r.astro) x h
        exact ⟨y, List.mem_cons_of_mem _ hy, ha, hc⟩

/-- The next-linking pass only rewrites the next field. -/
lemma mem_set_next : ∀ (l : List SnapshotRecord) (x : SnapshotRecord),
    x ∈ set_next l → ∃ y ∈ l, x.astro = y.astro ∧ x.candle = y.candle := by
  intro l
  induction l with
  | nil => intro x hx; simp [set_next] at hx
  | cons r rest ih =>
      intro x hx
      cases rest with
      | nil =>
          rw [set_next] at hx
          rcases List.mem_cons.mp hx with h | h
          · exact ⟨r, List.mem_cons_self _ _, by rw [h], by rw [h]⟩
          · simp at h
      | cons r2 rest2 =>
          rw [set_next] at hx
          rcases List.mem_cons.mp hx with h | h
          · exact ⟨r, List.mem_cons_self _ _, by rw [h], by rw [h]⟩
          · obtain ⟨y, hy, ha, hc⟩ := ih x h
            exact ⟨y, List.mem_cons_of_mem _ hy, ha, hc⟩

/-- The distance scan only rewrites the distance fields. -/
lemma mem_dist_scan : ∀ (l : List SnapshotRecord) (x : SnapshotRecord),
    x ∈ (dist_scan l).1 → ∃ y ∈ l, x.astro = y.astro ∧ x.candle = y.candle := by
  intro l
  induction l with
  | nil => intro x hx; simp [dist_scan] at hx
  | cons r rest ih =>
      intro x hx
      rw [dist_scan_cons] at hx
      rcases List.mem_cons.mp hx with h | h
      · exact ⟨r, List.mem_cons_self _ _, by rw [h], by rw [h]⟩
      · obtain ⟨y, hy, ha, hc⟩ := ih x h
        exact ⟨y, List.mem_cons_of_mem _ hy, ha, hc⟩

/-- Every record entering the distance scan carries the fallback astro
state of its own candle timestamp. -/
lemma pre_scan_astro (candles : List Candle) (x : SnapshotRecord)
    (hx : x ∈ set_next (set_prev none
      ((candles.mergeSort (fun a b => a.timestamp ≤ b.timestamp)).map
        (fun c => { candle := c, trend := compute_trend c,
                    astro := compute_astro_for_timestamp_fallback
                      c.timestamp })))) :
    x.astro = compute_astro_for_timestamp_fallback x.candle.timestamp := by
  obtain ⟨y1, hy1, ha1, hc1⟩ := mem_set_next _ x hx
  obtain ⟨y2, hy2, ha2, hc2⟩ := mem_set_prev none _ y1 hy1
  obtain ⟨c, _, rfl⟩ := List.mem_map.mp hy2
  rw [ha1, ha2, hc1, hc2]

/-- Every record produced by the fallback batch build carries the
fallback astro state of its own candle timestamp. -/
lemma build_snapshots_fallback_astro (candles : List Candle)
    (x : SnapshotRecord) (hx : x ∈ build_snapshots_fallback candles) :
    x.astro = compute_astro_for_timestamp_fallback x.candle.timestamp := by
  unfold build_snapshots_fallback compute_distance_to_next_changes at hx
  obtain ⟨y, hy, ha, hc⟩ := mem_dist_scan _ x hx
  rw [ha, hc]
  exact pre_scan_astro candles y hy

/-- When Sub transitions and SSL transitions coincide pairwise, the scan
states agree and every annotated record carries equal Sub and SSL
distances. -/
lemma dist_scan_lockstep : ∀ (m : List SnapshotRecord),
    (∀ x ∈ m, ∀ y ∈ m,
      (x.astro.sub = y.astro.sub ↔ x.astro.ssl = y.astro.ssl)) →
    (dist_scan m).2.1 = (dist_scan m).2.2 ∧
    (∀ r ∈ (dist_scan m).1,
      r.dist_to_next_sub_change = r.dist_to_next_ssl_change) := by
  intro m
  induction m with
  | nil => intro _; exact ⟨rfl, by simp [dist_scan]⟩
  | cons r rest ih =>
      intro hcond
      have hrest := ih (fun x hx y hy =>
        hcond x (List.mem_cons_of_mem _ hx) y (List.mem_cons_of_mem _ hy))
      rw [dist_scan_cons]
      cases rest with
      | nil =>
          refine ⟨rfl, ?_⟩
          intro r' hr'
          rcases List.mem_cons.mp hr' with h | h
          · rw [h]; simp [dist_scan]
          · simp [dist_scan] at h
      | cons r2 rest2 =>
          have hiff : r2.astro.sub = r.astro.sub ↔
              r2.astro.ssl = r.astro.ssl :=
            hcond r2 (List.mem_cons_of_mem _ (List.mem_cons_self _ _)) r
              (List.mem_cons_self _ _)
          have hstate : (match r2 :: rest2 with
              | [] => (dist_scan (r2 :: rest2)).2.1
              | r3 :: _ =>
                  if r3.astro.sub ≠ r.astro.sub then some r3.candle.timestamp
                  else (dist_scan (r2 :: rest2)).2.1) =
              (match r2 :: rest2 with
              | [] => (dist_scan (r2 :: rest2)).2.2
              | r3 :: _ =>
                  if r3.astro.ssl ≠ r.astro.ssl then some r3.candle.timestamp
                  else (dist_scan (r2 :: rest2)).2.2) := by
            simp only
            by_cases hs : r2.astro.sub = r.astro.sub
            · rw [if_neg (not_not_intro hs),
                if_neg (not_not_intro (hiff.mp hs)), hrest.1]
            · rw [if_pos hs, if_pos (fun hssl => hs (hiff.mpr hssl))]
          refine ⟨hstate, ?_⟩
          intro r' hr'
          rcases List.mem_cons.mp hr' with h | h
          · rw [h]
            exact congrArg
              (Option.map (fun t => (t - r.candle.timestamp) / 60)) hstate
          · exact hrest.2 r' h



/-- The prev-linking pass preserves length. -/
lemma set_prev_length : ∀ (p : Option AstroState) (l : List SnapshotRecord),
    (set_prev p l).length = l.length := by
  intro p l
  induction l generalizing p with
  | nil => rfl
  | cons r rest ih => rw [set_prev]; simp [ih]

/-- The next-linking pass preserves length. -/
lemma set_next_length : ∀ l : List SnapshotRecord,
    (set_next l).length = l.length := by
  intro l
  induction l with
  | nil => rfl
  | cons r rest ih =>
      cases rest with
      | nil => rfl
      | cons r2 rest2 => rw [set_next]; simp_all

/-- The fallback batch build returns one record per candle. -/
lemma build_snapshots_fallback_length (candles : List Candle) :
    (build_snapshots_fallback candles).length = candles.length := by
  unfold build_snapshots_fallback compute_distance_to_next_changes
  rw [dist_scan_length, set_next_length, set_prev_length, List.length_map,
    List.length_mergeSort]

/-- C10: in the ephemeris-unavailable fallback, every record of any
built batch has its SSL label equal to its Sub label with the suffix
-SSL appended, and its distance to the next Sub change equal to its
distance to the next SSL change. -/
theorem claim_C10_fallback_lockstep : ∀ (candles : List Candle) (i : ℕ),
    ((build_snapshots_fallback candles).get? i).elim True (fun r =>
      r.astro.ssl = r.astro.sub ++ "-SSL" ∧
      r.dist_to_next_sub_change = r.dist_to_next_ssl_change) := by
  intro candles i
  cases hg : (build_snapshots_fallback candles).get? i with
  | none => simp
  | some r =>
      simp only [Option.elim]
      have hmem : r ∈ build_snapshots_fallback candles := List.get?_mem hg
      have ha := build_snapshots_fallback_astro candles r hmem
      constructor
      · rw [ha]
        exact fallback_ssl_append _
      · have hmem' : r ∈ (dist_scan (set_next (set_prev none
            ((candles.mergeSort (fun a b => a.timestamp ≤ b.timestamp)).map
              (fun c => { candle := c, trend := compute_trend c,
                          astro := compute_astro_for_timestamp_fallback
                            c.timestamp }))))).1 := by
          unfold build_snapshots_fallback compute_distance_to_next_changes
            at hmem
          exact hmem
        refine (dist_scan_lockstep _ ?_).2 r hmem'
        intro x hx y hy
        rw [pre_scan_astro candles x hx, pre_scan_astro candles y hy]
        exact fallback_lockstep_iff _ _

/-- C3 (amended): in the ephemeris-unavailable fallback, every record of
any built batch is marked by the meta entry info = "FALLBACK -
pyswisseph nicht installiert" (there is NO boolean fallback key - the
original claim expected meta.fallback == true), its Sub label is
selected by floor(unix_seconds/60) mod 9 from the canonical lord pool,
and its SSL label comes from the disjoint -SSL pool. -/
theorem claim_C3_fallback_meta_amended :
    (∀ (candles : List Candle) (i : ℕ),
      ((build_snapshots_fallback candles).get? i).elim True (fun r =>
        r.astro.meta.lookup "info" =
          some (MetaVal.str "FALLBACK – pyswisseph nicht installiert") ∧
        r.astro.meta.lookup "fallback" = none ∧
        r.astro.sub =
          sub_names.getD ((⌊r.candle.timestamp / 60⌋ % 9).toNat) "" ∧
        r.astro.ssl =
          ssl_names.getD ((⌊r.candle.timestamp / 60⌋ % 9).toNat) "" ∧
        r.astro.sub ∈ sub_names ∧ r.astro.ssl ∈ ssl_names)) ∧
    (∀ s ∈ sub_names, s ∉ ssl_names) := by
  constructor
  · intro candles i
    cases hg : (build_snapshots_fallback candles).get? i with
    | none => simp
    | some r =>
        simp only [Option.elim]
        have ha := build_snapshots_fallback_astro candles r (List.get?_mem hg)
        rw [ha]
        exact ⟨fallback_meta_info _, fallback_meta_no_flag _, rfl, rfl,
          sub_names_getD_mem _ (fallback_minute_mod_lt _),
          ssl_names_getD_mem _ (fallback_minute_mod_lt _)⟩
  · exact sub_ssl_names_disjoint

/-- C3 witness: the label-pool disjointness part instantiated at the
first canonical label. -/
theorem claim_C3_witness : "KE" ∈ sub_names ∧ "KE" ∉ ssl_names :=
  ⟨by decide, claim_C3_fallback_meta_amended.2 "KE" (by decide)⟩

/-- C3 counterexample: the record built for a single candle at unix
time 0 under fallback has no "fallback" key in its meta dict (lookup
yields none, hence meta.fallback == true fails), even though the
fallback path ran, as its info marker shows. -/
theorem claim_C3_counterexample :
    ((build_snapshots_fallback [⟨0, "M1", 1, 1, 1, 1⟩]).get? 0).map
        (fun r => r.astro.meta.lookup "fallback") = some none ∧
    ((build_snapshots_fallback [⟨0, "M1", 1, 1, 1, 1⟩]).get? 0).map
        (fun r => r.astro.meta.lookup "info") =
      some (some (MetaVal.str "FALLBACK – pyswisseph nicht installiert")) := by
  cases hg : (build_snapshots_fallback [⟨0, "M1", 1, 1, 1, 1⟩]).get? 0 with
  | none =>
      exfalso
      have hnone := List.get?_eq_none.mp hg
      rw [build_snapshots_fallback_length] at hnone
      simp at hnone
  | some r =>
      have ha := build_snapshots_fallback_astro _ r (List.get?_mem hg)
      simp only [Option.map_some']
      rw [ha]
      exact ⟨congrArg some (fallback_meta_no_flag _),
        congrArg some (fallback_meta_info _)⟩

end AstroEngine
